import Mathlib

/-!
Verification development for the cooldown-buffer library (`src/lib.rs`,
function `cooldown_buffer`).

The library spawns one ingestion worker thread running the loop

  loop {
    let item = item_rx.recv()?;
    let _ = timer.cancel();
    items.lock().expect("poisoned mutex").push(item);
    let _ = timer.start(cooldown_time, move || {
      btx.send(cloned_items.lock().expect("poisoned mutex").clone())
          .expect("failed to send buffered items");
      cloned_items.lock().expect("poisoned mutex").clear();
    });
  }

We embed the whole system (producer handle, item channel, worker loop,
`ThreadTimer`, shared `items` vector, buffered-items channel, consumer
handle) as a timed small-step transition system.  Every atomic action of
the code — one critical section on the `items` mutex, one channel
operation, one timer operation — is one labelled step, so that all thread
interleavings the real program admits are traces of the system.

Faithfulness notes, keyed to the source:
* The worker's single loop iteration is split into the four atomic steps
  `recvItem`, `cancelStep`, `pushStep`, `startStep` because the `items`
  lock is held only for the `push` (line 95) and the timer calls are
  separate operations (lines 94 and 100).
* The timer callback (lines 100-104) is two distinct critical sections:
  `btx.send(guard.clone())` where the lock guard (a temporary) lives for
  the whole send statement, and a second `lock().clear()`.  Hence the two
  steps `snapSendStep` and `clearStep`, with the lock free between them.
* `timer.cancel()`'s `Result` is discarded (line 94): `cancelStep` always
  succeeds and just leaves the timer unarmed.
* `btx.send(..).expect(..)` panics when the consumer's `Receiver<Vec<T>>`
  has been dropped.  The panic unwinds while the lock guard is alive, so
  the `items` mutex becomes poisoned and the timer thread dies
  (`snapSendStep` with `rxAlive = false`).
* The worker's `items.lock().expect("poisoned mutex")` then panics on the
  poisoned mutex, terminating the worker thread (`pushStep` with
  `poisoned = true`), which drops `item_rx`, after which producer sends
  fail.
* The external `ThreadTimer` is modelled by the contract the spec states
  for it in §6: `start` schedules exactly one future invocation of the
  callback unless cancelled first, `cancel` is always safe, and one
  callback invocation completes before the next `start`'s callback can
  begin.  Accordingly `fireStep` needs an armed deadline whose cooldown
  has elapsed and an idle callback, and consumes the deadline.

Ghost fields (`subLog`, `log`, `nCancel`, `nStart`) record, without
influencing any step, the accepted items in submission order, the pushed
items with their push times, and the number of `timer.cancel` /
`timer.start` calls; the claims quantify over them.
-/

namespace CooldownBuffer

/-- Position of the ingestion worker thread inside one iteration of its
loop: blocked in `item_rx.recv()` (`idle`), holding a received item just
before `timer.cancel()` (`got`), after the cancel and before the locked
`push` (`can`), after the push and before `timer.start` (`pushed`), or
terminated (`dead`, by `recv` returning `Err` or by panicking on the
poisoned mutex). -/
inductive Phase (T : Type) where
  | idle : Phase T
  | got : T → Phase T
  | can : T → Phase T
  | pushed : Phase T
  | dead : Phase T
deriving DecidableEq

/-- Whether the worker thread is still running (its `item_rx` is alive
exactly as long as the thread is). -/
def Phase.alive {T : Type} : Phase T → Bool
  | .dead => false
  | _ => true

/-- Execution state of the timer callback of `timer.start` (lines
100-104): not executing (`idle`), invoked but the first lock not yet
taken (`fired`), snapshot cloned and sent with the lock released again
(`sent`), or the timer thread died panicking on a failed send (`dead`). -/
inductive Cb where
  | idle : Cb
  | fired : Cb
  | sent : Cb
  | dead : Cb
deriving DecidableEq

/-- Global state of the buffering system built by `cooldown_buffer`.
`now` is the time of the last event; `itemQ` the queue of the item
channel; `items` the shared `Vec<T>` behind the mutex; `armed` the
scheduled timer deadline's arming time, if any; `buffered` the batches
sent on the buffered-items channel, in emission order; `rxAlive` /
`txAlive` whether the consumer / producer handle is still held;
`poisoned` whether the `items` mutex is poisoned.  `subLog`, `log`,
`nCancel` and `nStart` are ghost observers (see module comment). -/
structure St (T : Type) where
  now : Nat
  itemQ : List T
  phase : Phase T
  items : List T
  armed : Option Nat
  cb : Cb
  buffered : List (List T)
  rxAlive : Bool
  txAlive : Bool
  poisoned : Bool
  subLog : List T
  log : List (T × Nat)
  nCancel : Nat
  nStart : Nat
deriving DecidableEq

/-- The item the worker holds mid-iteration (received but not yet pushed
onto the shared vector). -/
def held {T : Type} : Phase T → List T
  | .got x => [x]
  | .can x => [x]
  | _ => []

/-- One atomic action of one of the threads of the system. -/
inductive Act (T : Type) where
  | prodSend : T → Act T
  | txDrop : Act T
  | rxDrop : Act T
  | recvItem : Act T
  | cancelStep : Act T
  | pushStep : Act T
  | startStep : Act T
  | workerExit : Act T
  | fireStep : Act T
  | snapSendStep : Act T
  | clearStep : Act T
deriving DecidableEq

/-- Small-step semantics of the system: attempt action `a` at time `t`
from state `s` with cooldown `c`; `none` means the action is not enabled
there (or, for `prodSend`, that the send returns `Err`). -/
def stepFn {T : Type} (c : Nat) (s : St T) (t : Nat) (a : Act T) : Option (St T) :=
  if t < s.now then none else
  match a with
  | .prodSend x =>
      -- `tx.send(x)` succeeds iff `item_rx` is alive, i.e. the worker
      -- thread has not terminated (and the producer still holds `tx`).
      if s.txAlive && s.phase.alive then
        some { s with now := t, itemQ := s.itemQ ++ [x], subLog := s.subLog ++ [x] }
      else none
  | .txDrop =>
      if s.txAlive then some { s with now := t, txAlive := false } else none
  | .rxDrop =>
      if s.rxAlive then some { s with now := t, rxAlive := false } else none
  | .recvItem =>
      -- `item_rx.recv()` returning `Ok(item)` (line 90).
      match s.phase, s.itemQ with
      | .idle, x :: r => some { s with now := t, itemQ := r, phase := .got x }
      | _, _ => none
  | .cancelStep =>
      -- `let _ = timer.cancel()` (line 94): the `Err` of an unarmed
      -- timer is discarded, the step never fails.
      match s.phase with
      | .got x =>
          some { s with
                  now := t, phase := .can x, armed := none,
                  nCancel := s.nCancel + 1 }
      | _ => none
  | .pushStep =>
      -- `items.lock().expect("poisoned mutex").push(item)` (line 95):
      -- one critical section; panics (killing the worker) if poisoned.
      match s.phase with
      | .can x =>
          if s.poisoned then some { s with now := t, phase := .dead }
          else
            some { s with
                    now := t, phase := .pushed, items := s.items ++ [x],
                    log := s.log ++ [(x, t)] }
      | _ => none
  | .startStep =>
      -- `timer.start(cooldown_time, ..)` (line 100): arms the deadline.
      match s.phase with
      | .pushed =>
          some { s with
                  now := t, phase := .idle, armed := some t,
                  nStart := s.nStart + 1 }
      | _ => none
  | .workerExit =>
      -- `item_rx.recv()?` returning `Err(RecvError)`: all producer
      -- handles dropped and the channel drained; the worker returns.
      match s.phase, s.itemQ, s.txAlive with
      | .idle, [], false => some { s with now := t, phase := .dead }
      | _, _, _ => none
  | .fireStep =>
      -- The armed deadline elapses and the timer thread picks up the
      -- callback (serialised with any previous callback invocation).
      match s.armed, s.cb with
      | some ta, .idle =>
          if ta + c ≤ t then some { s with now := t, armed := none, cb := .fired }
          else none
      | _, _ => none
  | .snapSendStep =>
      -- `btx.send(cloned_items.lock().expect(..).clone()).expect(..)`
      -- (lines 101-102): one critical section that clones the vector and
      -- sends the clone; if the consumer dropped its receiver the
      -- `expect` panics while the lock guard is live, poisoning the
      -- mutex and killing the timer thread.
      match s.cb with
      | .fired =>
          if s.rxAlive then
            some { s with now := t, cb := .sent, buffered := s.buffered ++ [s.items] }
          else
            some { s with now := t, cb := .dead, poisoned := true }
      | _ => none
  | .clearStep =>
      -- `cloned_items.lock().expect(..).clear()` (line 103): a second,
      -- separate critical section.
      match s.cb with
      | .sent => some { s with now := t, cb := .idle, items := [] }
      | _ => none

/-- Initial state produced by `cooldown_buffer`: empty vector, nothing
armed, both handles live. -/
def buffInit {T : Type} : St T :=
  { now := 0, itemQ := [], phase := .idle, items := [], armed := none,
    cb := .idle, buffered := [], rxAlive := true, txAlive := true,
    poisoned := false, subLog := [], log := [], nCancel := 0, nStart := 0 }

/-- Run a timed trace of actions from a state; `none` if some action is
not enabled where attempted. -/
def runTrace {T : Type} (c : Nat) (s : St T) : List (Nat × Act T) → Option (St T)
  | [] => some s
  | e :: tr =>
      match stepFn c s e.1 e.2 with
      | some s2 => runTrace c s2 tr
      | none => none

/-- A state is reachable when some valid timed trace leads to it from
the initial state. -/
def Reach {T : Type} (c : Nat) (s : St T) : Prop :=
  ∃ tr, runTrace c buffInit tr = some s

/-- Ghost-counter relation: within one worker iteration, the cancel
happens before the push and the start after it, so the counters and the
number of pushed items stay in lockstep. -/
def countOk {T : Type} (s : St T) : Prop :=
  match s.phase with
  | .idle => s.nCancel = s.log.length ∧ s.nStart = s.log.length
  | .got _ => s.nCancel = s.log.length ∧ s.nStart = s.log.length
  | .can _ => s.nCancel = s.log.length + 1 ∧ s.nStart = s.log.length
  | .pushed => s.nCancel = s.log.length ∧ s.nStart + 1 = s.log.length
  | .dead => True

/-- Inductive invariant of the system, bundling every fact the claims
need: clock monotonicity of the ghost log (`tLog`), that an armed
deadline is newer than every push (`tArm`), that the worker between its
cancel and its start has the timer unarmed (`canUnarmed`,
`pushedUnarmed`), the activity invariant of the accumulator
(`activity`), the poisoning chain (`poisonCb`, `deadRx`, `deadPh`), the
submission-order equation (`ordEq`), that batches and the live vector
are order-preserving sublists of the pushed items (`batchSub`,
`accSub`), and the cancel/start counter relation (`counters`). -/
structure Inv {T : Type} (s : St T) : Prop where
  tLog : ∀ p ∈ s.log, p.2 ≤ s.now
  tArm : ∀ ta, s.armed = some ta → ta ≤ s.now ∧ ∀ p ∈ s.log, p.2 ≤ ta
  canUnarmed : ∀ x, s.phase = .can x → s.armed = none
  pushedUnarmed : s.phase = .pushed → s.armed = none
  activity : s.items ≠ [] →
    s.armed ≠ none ∨ s.cb ≠ .idle ∨ (s.phase ≠ .idle ∧ s.phase ≠ .dead)
  poisonCb : s.poisoned = true ↔ s.cb = .dead
  deadRx : s.cb = .dead → s.rxAlive = false
  deadPh : s.phase = .dead → s.poisoned = true ∨ s.txAlive = false
  ordEq : s.phase ≠ .dead → s.subLog = s.log.map Prod.fst ++ held s.phase ++ s.itemQ
  batchSub : ∀ b ∈ s.buffered, List.Sublist b (s.log.map Prod.fst)
  accSub : List.Sublist s.items (s.log.map Prod.fst)
  counters : countOk s

/-- Interleaving with cooldown 100 that stops between the flush
callback's two critical sections: item 1 is sent at time 0 and flushed at
time 100; item 2 arrives at time 100, just after the callback's
snapshot-and-send but before its clear, and the worker has already
re-received it and cancelled the (already fired) timer. -/
def tr2pre : List (Nat × Act Nat) :=
  [(0, .prodSend 1), (0, .recvItem), (0, .cancelStep), (0, .pushStep), (0, .startStep),
   (100, .fireStep), (100, .snapSendStep),
   (100, .prodSend 2), (100, .recvItem), (100, .cancelStep)]

/-- Continuation of `tr2pre`: the worker pushes item 2 into the shared
vector between the callback's snapshot and its clear; the clear then
discards item 2, and the worker re-arms the timer. -/
def tr1 : List (Nat × Act Nat) :=
  tr2pre ++ [(100, .pushStep), (100, .clearStep), (100, .startStep)]

/-- Continuation of `tr1`: the deadline re-armed at time 100 elapses at
time 200 over the now-empty vector and the callback runs. -/
def tr3 : List (Nat × Act Nat) :=
  tr1 ++ [(200, .fireStep), (200, .snapSendStep)]

/-- Interleaving with cooldown 100 where item 2 arrives exactly when the
timer fires: the worker appends it before the callback takes the lock
for its snapshot, so the emitted batch contains an item accepted at the
very instant of emission. -/
def tr4 : List (Nat × Act Nat) :=
  [(0, .prodSend 1), (0, .recvItem), (0, .cancelStep), (0, .pushStep), (0, .startStep),
   (100, .fireStep),
   (100, .prodSend 2), (100, .recvItem), (100, .cancelStep), (100, .pushStep),
   (100, .snapSendStep)]

/-- The consumer drops its receiver at time 0 and the producer then
sends item 7 at time 1. -/
def tr8 : List (Nat × Act Nat) := [(0, .rxDrop), (1, .prodSend 7)]

/-- Doom chain after the consumer closes: item 1 is accepted and the
timer fires, the flush's send panics (no receiver) and poisons the
mutex, then the worker panics on the poisoned mutex while processing
item 2 and terminates — all while the producer still holds its handle. -/
def tr8w : List (Nat × Act Nat) :=
  [(0, .rxDrop), (0, .prodSend 1), (0, .recvItem), (0, .cancelStep), (0, .pushStep),
   (0, .startStep), (100, .fireStep), (100, .snapSendStep),
   (100, .prodSend 2), (100, .recvItem), (100, .cancelStep), (100, .pushStep)]

/-- One clean iteration: item 1 accepted at time 0 and the timer armed. -/
def tr5pre : List (Nat × Act Nat) :=
  [(0, .prodSend 1), (0, .recvItem), (0, .cancelStep), (0, .pushStep), (0, .startStep)]

/-- State reached by `tr5pre`: item 1 in the shared vector, deadline
armed at time 0, one cancel and one start performed. -/
def s5 : St Nat :=
  { now := 0, itemQ := [], phase := .idle, items := [1], armed := some 0,
    cb := .idle, buffered := [], rxAlive := true, txAlive := true,
    poisoned := false, subLog := [1], log := [(1, 0)], nCancel := 1, nStart := 1 }

/-- State after the deadline of `s5` elapses at time 100 and the timer
picks up the callback. -/
def s5f : St Nat := { s5 with now := 100, armed := none, cb := .fired }

/-- State reached by `tr2pre`: the flush callback has sent its snapshot
`[1]` but not yet cleared, and the worker holds item 2 after its
cancel. -/
def s2mid : St Nat :=
  { now := 100, itemQ := [], phase := .can 2, items := [1], armed := none,
    cb := .sent, buffered := [[1]], rxAlive := true, txAlive := true,
    poisoned := false, subLog := [1, 2], log := [(1, 0)], nCancel := 2, nStart := 1 }

/-- State reached by `tr1` followed by the fire at time 200: the timer
fires over an empty vector. -/
def s3mid : St Nat :=
  { now := 200, itemQ := [], phase := .idle, items := [], armed := none,
    cb := .fired, buffered := [[1]], rxAlive := true, txAlive := true,
    poisoned := false, subLog := [1, 2], log := [(1, 0), (2, 100)],
    nCancel := 2, nStart := 2 }

/-- State reached by the first seven events of `tr8w`: the timer has
fired while the consumer's receiver is already dropped. -/
def s7mid : St Nat :=
  { now := 100, itemQ := [], phase := .idle, items := [1], armed := none,
    cb := .fired, buffered := [], rxAlive := false, txAlive := true,
    poisoned := false, subLog := [1], log := [(1, 0)], nCancel := 1, nStart := 1 }

/-- State reached by `tr8w`: the flush panicked on the dead egress
channel, the mutex is poisoned, and the worker died on it — while the
producer still holds its sending handle. -/
def s8 : St Nat :=
  { now := 100, itemQ := [], phase := .dead, items := [1], armed := none,
    cb := .dead, buffered := [], rxAlive := false, txAlive := true,
    poisoned := true, subLog := [1, 2], log := [(1, 0)], nCancel := 2, nStart := 1 }

/-- State reached by sending item 3 at time 0 and the worker receiving
it: the worker is about to call `timer.cancel()` with nothing armed. -/
def s9mid : St Nat :=
  { now := 0, itemQ := [], phase := .got 3, items := [], armed := none,
    cb := .idle, buffered := [], rxAlive := true, txAlive := true,
    poisoned := false, subLog := [3], log := [], nCancel := 0, nStart := 0 }

/-- State reached by the first six events of `tr4`: the timer has fired
with item 1 in the vector and a live consumer. -/
def s10mid : St Nat :=
  { now := 100, itemQ := [], phase := .idle, items := [1], armed := none,
    cb := .fired, buffered := [], rxAlive := true, txAlive := true,
    poisoned := false, subLog := [1], log := [(1, 0)], nCancel := 1, nStart := 1 }

/-- State after the snapshot-and-send step from `s10mid`. -/
def s10post : St Nat := { s10mid with cb := .sent, buffered := [[1]] }

theorem inv_step {T : Type} {c : Nat} {s s' : St T} {t : Nat} {a : Act T}
    (hI : Inv s) (h : stepFn c s t a = some s') : Inv s' := by
  unfold stepFn at h
  split at h
  · exact Option.noConfusion h
  rename_i htime
  have hnow : s.now ≤ t := Nat.le_of_not_lt htime
  cases a <;> dsimp only at h
  case prodSend x =>
    split at h
    · rename_i hc
      simp only [Option.some.injEq] at h
      subst h
      refine ⟨?_, ?_, ?_, ?_, ?_, ?_, ?_, ?_, ?_, ?_, ?_, ?_⟩
      · exact fun p hp => Nat.le_trans (hI.tLog p hp) hnow
      · exact fun ta hta => ⟨Nat.le_trans (hI.tArm ta hta).1 hnow, (hI.tArm ta hta).2⟩
      · exact hI.canUnarmed
      · exact hI.pushedUnarmed
      · exact hI.activity
      · exact hI.poisonCb
      · exact hI.deadRx
      · exact hI.deadPh
      · intro hph
        have hoe := hI.ordEq hph
        dsimp only
        rw [hoe]
        simp [List.append_assoc]
      · exact hI.batchSub
      · exact hI.accSub
      · exact hI.counters
    · exact Option.noConfusion h
  case txDrop =>
    split at h
    · simp only [Option.some.injEq] at h
      subst h
      refine ⟨?_, ?_, ?_, ?_, ?_, ?_, ?_, ?_, ?_, ?_, ?_, ?_⟩
      · exact fun p hp => Nat.le_trans (hI.tLog p hp) hnow
      · exact fun ta hta => ⟨Nat.le_trans (hI.tArm ta hta).1 hnow, (hI.tArm ta hta).2⟩
      · exact hI.canUnarmed
      · exact hI.pushedUnarmed
      · exact hI.activity
      · exact hI.poisonCb
      · exact hI.deadRx
      · exact fun _ => Or.inr rfl
      · exact hI.ordEq
      · exact hI.batchSub
      · exact hI.accSub
      · exact hI.counters
    · exact Option.noConfusion h
  case rxDrop =>
    split at h
    · simp only [Option.some.injEq] at h
      subst h
      refine ⟨?_, ?_, ?_, ?_, ?_, ?_, ?_, ?_, ?_, ?_, ?_, ?_⟩
      · exact fun p hp => Nat.le_trans (hI.tLog p hp) hnow
      · exact fun ta hta => ⟨Nat.le_trans (hI.tArm ta hta).1 hnow, (hI.tArm ta hta).2⟩
      · exact hI.canUnarmed
      · exact hI.pushedUnarmed
      · exact hI.activity
      · exact hI.poisonCb
      · exact fun _ => rfl
      · exact hI.deadPh
      · exact hI.ordEq
      · exact hI.batchSub
      · exact hI.accSub
      · exact hI.counters
    · exact Option.noConfusion h
  case recvItem =>
    split at h
    · rename_i x r hph hq
      simp only [Option.some.injEq] at h
      subst h
      refine ⟨?_, ?_, ?_, ?_, ?_, ?_, ?_, ?_, ?_, ?_, ?_, ?_⟩
      · exact fun p hp => Nat.le_trans (hI.tLog p hp) hnow
      · exact fun ta hta => ⟨Nat.le_trans (hI.tArm ta hta).1 hnow, (hI.tArm ta hta).2⟩
      · intro y hy
        exact nomatch hy
      · intro hy
        exact nomatch hy
      · intro _
        exact Or.inr (Or.inr ⟨(fun hh => nomatch hh), (fun hh => nomatch hh)⟩)
      · exact hI.poisonCb
      · exact hI.deadRx
      · intro hh
        exact nomatch hh
      · intro _
        have hoe := hI.ordEq (by rw [hph]; intro hh; exact nomatch hh)
        dsimp only
        rw [hoe, hph, hq]
        simp [held]
      · exact hI.batchSub
      · exact hI.accSub
      · have hcnt := hI.counters
        unfold countOk at hcnt ⊢
        rw [hph] at hcnt
        dsimp only at hcnt ⊢
        exact hcnt
    · exact Option.noConfusion h
  case cancelStep =>
    split at h
    · rename_i x hph
      simp only [Option.some.injEq] at h
      subst h
      refine ⟨?_, ?_, ?_, ?_, ?_, ?_, ?_, ?_, ?_, ?_, ?_, ?_⟩
      · exact fun p hp => Nat.le_trans (hI.tLog p hp) hnow
      · exact fun ta hta => Option.noConfusion hta
      · exact fun y _ => rfl
      · exact fun _ => rfl
      · intro _
        exact Or.inr (Or.inr ⟨(fun hh => nomatch hh), (fun hh => nomatch hh)⟩)
      · exact hI.poisonCb
      · exact hI.deadRx
      · intro hh
        exact nomatch hh
      · intro _
        have hoe := hI.ordEq (by rw [hph]; intro hh; exact nomatch hh)
        dsimp only
        rw [hoe, hph]
        simp [held]
      · exact hI.batchSub
      · exact hI.accSub
      · have hcnt := hI.counters
        unfold countOk at hcnt ⊢
        rw [hph] at hcnt
        dsimp only at hcnt ⊢
        exact ⟨by omega, hcnt.2⟩
    · exact Option.noConfusion h
  case pushStep =>
    split at h
    · rename_i x hph
      split at h
      · rename_i hpo
        simp only [Option.some.injEq] at h
        subst h
        refine ⟨?_, ?_, ?_, ?_, ?_, ?_, ?_, ?_, ?_, ?_, ?_, ?_⟩
        · exact fun p hp => Nat.le_trans (hI.tLog p hp) hnow
        · exact fun ta hta => ⟨Nat.le_trans (hI.tArm ta hta).1 hnow, (hI.tArm ta hta).2⟩
        · intro y hy
          exact nomatch hy
        · intro hy
          exact nomatch hy
        · intro _
          refine Or.inr (Or.inl ?_)
          have hcb := hI.poisonCb.mp hpo
          rw [hcb]
          intro hh
          exact nomatch hh
        · exact hI.poisonCb
        · exact hI.deadRx
        · exact fun _ => Or.inl hpo
        · intro hh
          exact absurd rfl hh
        · exact hI.batchSub
        · exact hI.accSub
        · exact trivial
      · rename_i hpo
        simp only [Option.some.injEq] at h
        subst h
        refine ⟨?_, ?_, ?_, ?_, ?_, ?_, ?_, ?_, ?_, ?_, ?_, ?_⟩
        · intro p hp
          dsimp only at hp
          rcases List.mem_append.mp hp with hp | hp
          · exact Nat.le_trans (hI.tLog p hp) hnow
          · simp only [List.mem_singleton] at hp
            subst hp
            exact Nat.le_refl t
        · intro ta hta
          have := hI.canUnarmed x hph
          dsimp only at hta
          rw [this] at hta
          exact Option.noConfusion hta
        · intro y hy
          exact nomatch hy
        · intro _
          exact hI.canUnarmed x hph
        · intro _
          exact Or.inr (Or.inr ⟨(fun hh => nomatch hh), (fun hh => nomatch hh)⟩)
        · exact hI.poisonCb
        · exact hI.deadRx
        · intro hh
          exact nomatch hh
        · intro _
          have hoe := hI.ordEq (by rw [hph]; intro hh; exact nomatch hh)
          dsimp only
          rw [hoe, hph]
          simp [held]
        · intro b hb
          dsimp only at hb ⊢
          have := hI.batchSub b hb
          rw [List.map_append]
          exact this.trans (List.sublist_append_left _ _)
        · dsimp only
          rw [List.map_append]
          exact List.Sublist.append hI.accSub (List.Sublist.refl _)
        · have hcnt := hI.counters
          unfold countOk at hcnt ⊢
          rw [hph] at hcnt
          dsimp only at hcnt ⊢
          simp only [List.length_append, List.length_cons, List.length_nil]
          omega
    · exact Option.noConfusion h
  case startStep =>
    split at h
    · rename_i hph
      simp only [Option.some.injEq] at h
      subst h
      refine ⟨?_, ?_, ?_, ?_, ?_, ?_, ?_, ?_, ?_, ?_, ?_, ?_⟩
      · exact fun p hp => Nat.le_trans (hI.tLog p hp) hnow
      · intro ta hta
        dsimp only at hta
        have hta2 : t = ta := by
          simpa using hta
        subst hta2
        exact ⟨Nat.le_refl t, fun p hp => Nat.le_trans (hI.tLog p hp) hnow⟩
      · intro y hy
        exact nomatch hy
      · intro hy
        exact nomatch hy
      · intro _
        refine Or.inl ?_
        dsimp only
        intro hh
        exact Option.noConfusion hh
      · exact hI.poisonCb
      · exact hI.deadRx
      · intro hh
        exact nomatch hh
      · intro _
        have hoe := hI.ordEq (by rw [hph]; intro hh; exact nomatch hh)
        dsimp only
        rw [hoe, hph]
        simp [held]
      · exact hI.batchSub
      · exact hI.accSub
      · have hcnt := hI.counters
        unfold countOk at hcnt ⊢
        rw [hph] at hcnt
        dsimp only at hcnt ⊢
        omega
    · exact Option.noConfusion h
  case workerExit =>
    split at h
    · rename_i hph hq htx
      simp only [Option.some.injEq] at h
      subst h
      refine ⟨?_, ?_, ?_, ?_, ?_, ?_, ?_, ?_, ?_, ?_, ?_, ?_⟩
      · exact fun p hp => Nat.le_trans (hI.tLog p hp) hnow
      · exact fun ta hta => ⟨Nat.le_trans (hI.tArm ta hta).1 hnow, (hI.tArm ta hta).2⟩
      · intro y hy
        exact nomatch hy
      · intro hy
        exact nomatch hy
      · intro hne
        rcases hI.activity hne with ha | ha | ha
        · exact Or.inl ha
        · exact Or.inr (Or.inl ha)
        · exact absurd hph ha.1
      · exact hI.poisonCb
      · exact hI.deadRx
      · exact fun _ => Or.inr htx
      · intro hh
        exact absurd rfl hh
      · exact hI.batchSub
      · exact hI.accSub
      · exact trivial
    · exact Option.noConfusion h
  case fireStep =>
    split at h
    · rename_i ta harm hcb
      split at h
      · rename_i hta
        simp only [Option.some.injEq] at h
        subst h
        refine ⟨?_, ?_, ?_, ?_, ?_, ?_, ?_, ?_, ?_, ?_, ?_, ?_⟩
        · exact fun p hp => Nat.le_trans (hI.tLog p hp) hnow
        · intro tb htb
          exact Option.noConfusion htb
        · exact fun y _ => rfl
        · exact fun _ => rfl
        · intro _
          refine Or.inr (Or.inl ?_)
          intro hh
          exact nomatch hh
        · constructor
          · intro hp
            have := hI.poisonCb.mp hp
            rw [hcb] at this
            exact nomatch this
          · intro hh
            exact nomatch hh
        · intro hh
          exact nomatch hh
        · exact hI.deadPh
        · exact hI.ordEq
        · exact hI.batchSub
        · exact hI.accSub
        · exact hI.counters
      · exact Option.noConfusion h
    · exact Option.noConfusion h
  case snapSendStep =>
    split at h
    · rename_i hcb
      split at h
      · rename_i hrx
        simp only [Option.some.injEq] at h
        subst h
        refine ⟨?_, ?_, ?_, ?_, ?_, ?_, ?_, ?_, ?_, ?_, ?_, ?_⟩
        · exact fun p hp => Nat.le_trans (hI.tLog p hp) hnow
        · exact fun tb htb => ⟨Nat.le_trans (hI.tArm tb htb).1 hnow, (hI.tArm tb htb).2⟩
        · exact hI.canUnarmed
        · exact hI.pushedUnarmed
        · intro _
          refine Or.inr (Or.inl ?_)
          intro hh
          exact nomatch hh
        · constructor
          · intro hp
            have := hI.poisonCb.mp hp
            rw [hcb] at this
            exact nomatch this
          · intro hh
            exact nomatch hh
        · intro hh
          exact nomatch hh
        · exact hI.deadPh
        · exact hI.ordEq
        · intro b hb
          dsimp only at hb
          rcases List.mem_append.mp hb with hb | hb
          · exact hI.batchSub b hb
          · simp only [List.mem_singleton] at hb
            subst hb
            exact hI.accSub
        · exact hI.accSub
        · exact hI.counters
      · rename_i hrx
        simp only [Option.some.injEq] at h
        subst h
        have hrx2 : s.rxAlive = false := by
          simpa using hrx
        refine ⟨?_, ?_, ?_, ?_, ?_, ?_, ?_, ?_, ?_, ?_, ?_, ?_⟩
        · exact fun p hp => Nat.le_trans (hI.tLog p hp) hnow
        · exact fun tb htb => ⟨Nat.le_trans (hI.tArm tb htb).1 hnow, (hI.tArm tb htb).2⟩
        · exact hI.canUnarmed
        · exact hI.pushedUnarmed
        · intro _
          refine Or.inr (Or.inl ?_)
          intro hh
          exact nomatch hh
        · exact ⟨fun _ => rfl, fun _ => rfl⟩
        · exact fun _ => hrx2
        · exact fun _ => Or.inl rfl
        · exact hI.ordEq
        · exact hI.batchSub
        · exact hI.accSub
        · exact hI.counters
    · exact Option.noConfusion h
  case clearStep =>
    split at h
    · rename_i hcb
      simp only [Option.some.injEq] at h
      subst h
      refine ⟨?_, ?_, ?_, ?_, ?_, ?_, ?_, ?_, ?_, ?_, ?_, ?_⟩
      · exact fun p hp => Nat.le_trans (hI.tLog p hp) hnow
      · exact fun tb htb => ⟨Nat.le_trans (hI.tArm tb htb).1 hnow, (hI.tArm tb htb).2⟩
      · exact hI.canUnarmed
      · exact hI.pushedUnarmed
      · intro hne
        exact absurd rfl hne
      · constructor
        · intro hp
          have := hI.poisonCb.mp hp
          rw [hcb] at this
          exact nomatch this
        · intro hh
          exact nomatch hh
      · intro hh
        exact nomatch hh
      · exact hI.deadPh
      · exact hI.ordEq
      · exact hI.batchSub
      · exact List.nil_sublist _
      · exact hI.counters
    · exact Option.noConfusion h

theorem buffInit_inv {T : Type} : Inv (buffInit (T := T)) := by
  refine ⟨?_, ?_, ?_, ?_, ?_, ?_, ?_, ?_, ?_, ?_, ?_, ?_⟩ <;>
    simp [buffInit, countOk, held]

theorem run_inv {T : Type} {c : Nat} :
    ∀ (tr : List (Nat × Act T)) (s s2 : St T),
      Inv s → runTrace c s tr = some s2 → Inv s2 := by
  intro tr
  induction tr with
  | nil =>
      intro s s2 hI h
      unfold runTrace at h
      simp only [Option.some.injEq] at h
      subst h
      exact hI
  | cons e tr ih =>
      intro s s2 hI h
      unfold runTrace at h
      split at h
      · rename_i s1 hs
        exact ih s1 s2 (inv_step hI hs) h
      · exact Option.noConfusion h

theorem reach_inv {T : Type} {c : Nat} {s : St T} (hr : Reach c s) : Inv s := by
  obtain ⟨tr, htr⟩ := hr
  exact run_inv tr buffInit s buffInit_inv htr

theorem step_buffered {T : Type} {c : Nat} {s s' : St T} {t : Nat} {a : Act T}
    (h : stepFn c s t a = some s') : ∃ u, s'.buffered = s.buffered ++ u := by
  unfold stepFn at h
  split at h
  · exact Option.noConfusion h
  cases a <;> dsimp only at h <;> (try split at h) <;> (try split at h) <;>
    first
      | exact Option.noConfusion h
      | (simp only [Option.some.injEq] at h
         subst h
         first
           | exact ⟨[], (List.append_nil _).symm⟩
           | exact ⟨[s.items], rfl⟩)

theorem run_buffered {T : Type} {c : Nat} :
    ∀ (tr : List (Nat × Act T)) (s s2 : St T), runTrace c s tr = some s2 →
      ∃ u, s2.buffered = s.buffered ++ u := by
  intro tr
  induction tr with
  | nil =>
      intro s s2 h
      unfold runTrace at h
      simp only [Option.some.injEq] at h
      subst h
      exact ⟨[], by simp⟩
  | cons e tr ih =>
      intro s s2 h
      unfold runTrace at h
      split at h
      · rename_i s1 hs
        obtain ⟨u1, hu1⟩ := step_buffered hs
        obtain ⟨u2, hu2⟩ := ih s1 s2 h
        exact ⟨u1 ++ u2, by rw [hu2, hu1, List.append_assoc]⟩
      · exact Option.noConfusion h

theorem cbDead_step {T : Type} {c : Nat} {s s' : St T} {t : Nat} {a : Act T}
    (hd : s.cb = Cb.dead) (h : stepFn c s t a = some s') :
    s'.cb = Cb.dead ∧ s'.buffered = s.buffered := by
  unfold stepFn at h
  split at h
  · exact Option.noConfusion h
  cases a <;> dsimp only at h <;> (try split at h) <;> (try split at h) <;>
    first
      | exact Option.noConfusion h
      | (simp only [Option.some.injEq] at h
         subst h
         first
           | exact ⟨hd, rfl⟩
           | exact ⟨rfl, rfl⟩)
      | (exfalso
         simp_all)

theorem cbDead_run {T : Type} {c : Nat} :
    ∀ (tr : List (Nat × Act T)) (s s2 : St T), s.cb = Cb.dead →
      runTrace c s tr = some s2 → s2.cb = Cb.dead ∧ s2.buffered = s.buffered := by
  intro tr
  induction tr with
  | nil =>
      intro s s2 hd h
      unfold runTrace at h
      simp only [Option.some.injEq] at h
      subst h
      exact ⟨hd, rfl⟩
  | cons e tr ih =>
      intro s s2 hd h
      unfold runTrace at h
      split at h
      · rename_i s1 hs
        obtain ⟨hd1, hb1⟩ := cbDead_step hd hs
        obtain ⟨hd2, hb2⟩ := ih s1 s2 hd1 h
        exact ⟨hd2, hb2.trans hb1⟩
      · exact Option.noConfusion h

/-- C1: the claim says every accepted item appears in exactly one emitted
batch under all interleavings.  The code violates it: in the valid
interleaving `tr1`, item 2 is accepted (it is in `subLog` and was pushed,
it is in `log`) between the flush's snapshot-and-send and its clear, and
the clear then discards it — the emitted batches are `[[1]]`, the shared
vector and the intake queue are empty, so item 2 is in no batch and can
never reach one.  This theorem evaluates the embedded code on that
failing interleaving. -/
theorem C1_conservation_violated :
    (runTrace 100 buffInit tr1).map
        (fun s => (s.subLog, s.log, s.buffered, s.items, s.itemQ)) =
      some ([1, 2], [(1, 0), (2, 100)], [[1]], [], []) := rfl

/-- C2 counterexample: the claim says no concurrently-arriving item can
be appended between the flush's snapshot and its clear.  In fact, after
the valid trace `tr2pre` the callback has sent its snapshot but not yet
cleared (`cb = sent`), and the worker's push step is enabled right there
and appends item 2 to the shared vector while the flush is still between
its two critical sections. -/
theorem C2_append_between_snapshot_and_clear :
    ((runTrace 100 buffInit tr2pre).map (fun s => (s.cb, s.items, s.buffered)) =
        some (Cb.sent, [1], [[1]])) ∧
    ((runTrace 100 buffInit (tr2pre ++ [(100, Act.pushStep)])).map
        (fun s => (s.cb, s.items, s.buffered)) =
      some (Cb.sent, [1, 2], [[1]])) :=
  ⟨rfl, rfl⟩

/-- C2 (amended): the copy and the enqueue of the batch happen in one
critical section, but the clear is a second, separate critical section;
an item pushed by the worker between the snapshot and the clear is
accepted (recorded in `log`) and then discarded by the clear without
being emitted — the vector ends empty and the emitted batches are
unchanged. -/
theorem C2_clear_discards_race_append {T : Type} (c : Nat) (s : St T) (x : T)
    (t t2 : Nat) (hp : s.phase = Phase.can x) (hc : s.cb = Cb.sent)
    (hpo : s.poisoned = false) (h1 : s.now ≤ t) (h2 : t ≤ t2) :
    (stepFn c s t Act.pushStep).bind (fun s1 => stepFn c s1 t2 Act.clearStep) =
      some { s with
              now := t2, phase := Phase.pushed, items := [],
              log := s.log ++ [(x, t)], cb := Cb.idle } := by
  have hnt : ¬ t < s.now := Nat.not_lt.mpr h1
  have hnt2 : ¬ t2 < t := Nat.not_lt.mpr h2
  have hs1 : stepFn c s t Act.pushStep =
      some { s with
              now := t, phase := Phase.pushed, items := s.items ++ [x],
              log := s.log ++ [(x, t)] } := by
    unfold stepFn
    rw [if_neg hnt]
    dsimp only
    rw [hp, hpo]
    rfl
  rw [hs1]
  dsimp only [Option.bind]
  unfold stepFn
  dsimp only
  rw [if_neg hnt2, hc]

/-- C2 witness: the amended theorem applied at the concrete reachable
mid-flush state `s2mid` with item 2 at time 100. -/
theorem C2_clear_discards_race_append_witness :
    (stepFn 100 s2mid 100 Act.pushStep).bind
        (fun s1 => stepFn 100 s1 100 Act.clearStep) =
      some { s2mid with
              now := 100, phase := Phase.pushed, items := [],
              log := [(1, 0), (2, 100)], cb := Cb.idle } :=
  C2_clear_discards_race_append 100 s2mid 2 100 100 rfl rfl rfl (by decide) (by decide)

/-- C3 counterexample: the claim says an empty batch is never sent.  In
the valid interleaving `tr3` the timer re-armed during a flush fires at
time 200 over the empty vector and the callback sends the empty batch:
the egress channel ends holding `[[1], []]`. -/
theorem C3_empty_batch_emitted :
    (runTrace 100 buffInit tr3).map (fun s => (s.items, s.buffered)) =
      some ([], [[1], []]) := rfl

/-- C3 (amended): the flush closure has no emptiness check: when the
callback runs with an empty vector and a live consumer, it
unconditionally sends the vector's current contents, so an empty batch
is emitted. -/
theorem C3_fire_on_empty_sends_empty {T : Type} (c : Nat) (s : St T) (t : Nat)
    (hc : s.cb = Cb.fired) (hrx : s.rxAlive = true) (he : s.items = [])
    (h1 : s.now ≤ t) :
    stepFn c s t Act.snapSendStep =
      some { s with now := t, cb := Cb.sent, buffered := s.buffered ++ [[]] } := by
  unfold stepFn
  rw [if_neg (Nat.not_lt.mpr h1)]
  dsimp only
  rw [hc, hrx, he]
  rfl

/-- C3 witness: the amended theorem applied at the concrete reachable
state `s3mid`, where the timer has fired over an empty vector. -/
theorem C3_fire_on_empty_sends_empty_witness :
    stepFn 100 s3mid 200 Act.snapSendStep =
      some { s3mid with cb := Cb.sent, buffered := [[1], []] } :=
  C3_fire_on_empty_sends_empty 100 s3mid 200 rfl rfl rfl (by decide)

/-- C4 counterexample: the claim says no batch is ever emitted while the
elapsed time since the most recent accepted item is less than the
cooldown.  In the valid interleaving `tr4` (cooldown 100) the batch
`[1, 2]` is emitted at time 100 while item 2 was pushed at time 100 —
elapsed time 0. -/
theorem C4_batch_with_fresh_item :
    (runTrace 100 buffInit tr4).map (fun s => (s.now, s.log, s.buffered)) =
      some (100, [(1, 0), (2, 100)], [[1, 2]]) := rfl

/-- C4 (amended): in every reachable state, a timer fire at time `t` can
only happen when every accepted item was pushed at least the cooldown
before `t` (so the fire itself only happens after a full quiet cooldown),
and whenever the worker is between iterations each accepted item has
caused exactly one `timer.cancel` and one `timer.start`.  (The original
claim's no-premature-batch part fails because an item arriving between
the fire and the snapshot still enters the emitted batch, as the
counterexample shows.) -/
theorem C4_fire_cooldown_and_rearm_count {T : Type} (c : Nat) (s s2 : St T)
    (t : Nat) (hr : Reach c s) :
    (stepFn c s t Act.fireStep = some s2 → ∀ p ∈ s.log, p.2 + c ≤ t) ∧
    (s.phase = Phase.idle → s.nCancel = s.log.length ∧ s.nStart = s.log.length) := by
  have hI := reach_inv hr
  constructor
  · intro hstep p hp
    unfold stepFn at hstep
    split at hstep
    · exact Option.noConfusion hstep
    dsimp only at hstep
    split at hstep
    · rename_i ta harm hcb
      split at hstep
      · rename_i hta
        have hle := (hI.tArm ta harm).2 p hp
        omega
      · exact Option.noConfusion hstep
    · exact Option.noConfusion hstep
  · intro hph
    have hcnt := hI.counters
    unfold countOk at hcnt
    rw [hph] at hcnt
    dsimp only at hcnt
    exact hcnt

/-- C4 witness: the amended theorem applied at the reachable state `s5`
(item 1 pushed at time 0, deadline armed at time 0) with the fire at time
100 = 0 + cooldown. -/
theorem C4_fire_cooldown_and_rearm_count_witness :
    (∀ p ∈ s5.log, p.2 + 100 ≤ 100) ∧
    (s5.nCancel = s5.log.length ∧ s5.nStart = s5.log.length) := by
  have h := C4_fire_cooldown_and_rearm_count 100 s5 s5f 100 ⟨tr5pre, rfl⟩
  exact ⟨h.1 rfl, h.2 rfl⟩

/-- C5 counterexample: the claim says the accumulator is non-empty if
and only if a flush is pending or in progress.  After the valid
interleaving `tr1` the system is quiescent (worker idle, callback idle)
with the timer armed — a flush is pending — yet the vector is empty. -/
theorem C5_armed_with_empty_accumulator :
    (runTrace 100 buffInit tr1).map (fun s => (s.items, s.armed, s.cb, s.phase)) =
      some ([], some 100, Cb.idle, Phase.idle) := rfl

/-- C5 (amended): only one direction of the claimed invariant holds — in
every reachable state, if the vector is non-empty then a deadline is
armed, or the flush callback is not idle (running, or dead of a panic),
or the ingestion worker is mid-iteration or terminated.  The converse
fails, as the counterexample shows. -/
theorem C5_nonempty_implies_active {T : Type} (c : Nat) (s : St T)
    (hr : Reach c s) (hne : s.items ≠ []) :
    s.armed ≠ none ∨ s.cb ≠ Cb.idle ∨ (s.phase ≠ Phase.idle ∧ s.phase ≠ Phase.dead) :=
  (reach_inv hr).activity hne

/-- C5 witness: the amended invariant applied at the reachable state
`s5`, whose vector holds item 1 and whose deadline is armed. -/
theorem C5_nonempty_implies_active_witness :
    s5.items ≠ [] ∧
    (s5.armed ≠ none ∨ s5.cb ≠ Cb.idle ∨
      (s5.phase ≠ Phase.idle ∧ s5.phase ≠ Phase.dead)) :=
  ⟨by decide, C5_nonempty_implies_active 100 s5 ⟨tr5pre, rfl⟩ (by decide)⟩

/-- C6: in every reachable state, the accepted items (`subLog`, the
submission order of the producer-side sends) are exactly the pushed
items in push order, followed by the item the worker currently holds and
by the still-queued intake — so items are appended in exactly the order
the worker dequeues them, which for the FIFO intake is submission order;
and every emitted batch, and the live vector, list their items as
order-preserving sublists of the pushed-items order — no reordering
after acceptance. -/
theorem C6_order_preserved {T : Type} (c : Nat) (s : St T) (hr : Reach c s) :
    (s.phase ≠ Phase.dead →
      s.subLog = s.log.map Prod.fst ++ held s.phase ++ s.itemQ) ∧
    (∀ b ∈ s.buffered, List.Sublist b (s.log.map Prod.fst)) ∧
    List.Sublist s.items (s.log.map Prod.fst) := by
  have hI := reach_inv hr
  exact ⟨hI.ordEq, hI.batchSub, hI.accSub⟩

/-- C6 witness: the ordering theorem applied at the reachable state
`s5`. -/
theorem C6_order_preserved_witness :
    (s5.subLog = s5.log.map Prod.fst ++ held s5.phase ++ s5.itemQ) ∧
    List.Sublist s5.items (s5.log.map Prod.fst) := by
  have h := C6_order_preserved 100 s5 ⟨tr5pre, rfl⟩
  exact ⟨h.1 (by decide), h.2.2⟩

/-- C7: if the egress channel has no live receiver when a flush attempts
to send, the `expect` panics: the timer thread performing the flush
terminates (`cb = dead`) and the failure propagates by poisoning the
shared mutex; nothing is emitted, and from the resulting state no
continuation ever revives the flusher or emits another batch — the error
is neither retried nor swallowed. -/
theorem C7_flush_send_failure_fatal {T : Type} (c : Nat) (s : St T) (t : Nat)
    (hc : s.cb = Cb.fired) (hrx : s.rxAlive = false) (h1 : s.now ≤ t) :
    stepFn c s t Act.snapSendStep =
      some { s with now := t, cb := Cb.dead, poisoned := true } ∧
    (∀ (tr : List (Nat × Act T)) (s2 : St T),
        runTrace c { s with now := t, cb := Cb.dead, poisoned := true } tr = some s2 →
        s2.cb = Cb.dead ∧ s2.buffered = s.buffered) := by
  constructor
  · unfold stepFn
    rw [if_neg (Nat.not_lt.mpr h1)]
    dsimp only
    rw [hc, hrx]
    rfl
  · intro tr s2 h
    exact cbDead_run tr { s with now := t, cb := Cb.dead, poisoned := true } s2 rfl h

/-- C7 witness: the theorem applied at the concrete reachable state
`s7mid` (timer fired, consumer gone), including its continuation clause
at the empty trace. -/
theorem C7_flush_send_failure_fatal_witness :
    (stepFn 100 s7mid 100 Act.snapSendStep =
      some { s7mid with cb := Cb.dead, poisoned := true }) ∧
    (({ s7mid with cb := Cb.dead, poisoned := true } : St Nat).cb = Cb.dead ∧
      ({ s7mid with cb := Cb.dead, poisoned := true } : St Nat).buffered =
        s7mid.buffered) := by
  have h := C7_flush_send_failure_fatal 100 s7mid 100 rfl rfl (by decide)
  exact ⟨h.1, h.2 [] _ rfl⟩

/-- C8 counterexample: the claim says producer sends fail exactly when
the consuming side has closed.  In the valid trace `tr8` the consumer
drops its receiver at time 0 and the producer's send of item 7 at time 1
still succeeds (the item is accepted into the intake queue). -/
theorem C8_send_succeeds_after_consumer_close :
    (runTrace 100 buffInit tr8).map (fun s => (s.rxAlive, s.itemQ, s.subLog)) =
      some (false, [7], [7]) := rfl

/-- C8 (amended): only the safety direction holds — a producer-handle
send never fails while a consumer can still receive.  In every reachable
state where a send from a still-held producer handle would fail (the
worker thread is dead while `tx` is still held), the consumer side has
permanently closed; failure after the consumer closes is only eventual,
via the flush panic, the poisoned mutex and the worker's death, as trace
`tr8w` shows. -/
theorem C8_send_fails_only_if_consumer_closed {T : Type} (c : Nat) (s : St T)
    (hr : Reach c s) (hd : s.phase = Phase.dead) (htx : s.txAlive = true) :
    s.rxAlive = false := by
  have hI := reach_inv hr
  rcases hI.deadPh hd with hp | hp
  · exact hI.deadRx (hI.poisonCb.mp hp)
  · rw [htx] at hp
    exact Bool.noConfusion hp

/-- C8 witness: after the concrete doom-chain trace `tr8w` the worker is
dead while the producer handle is live, and the theorem yields that the
consumer had closed. -/
theorem C8_send_fails_only_if_consumer_closed_witness :
    s8.phase = Phase.dead ∧ s8.txAlive = true ∧ s8.rxAlive = false :=
  ⟨rfl, rfl, C8_send_fails_only_if_consumer_closed 100 s8 ⟨tr8w, rfl⟩ rfl rfl⟩

/-- C9: cancelling the timer when no deadline is armed is silently
accepted: the `let _ = timer.cancel()` step succeeds (it is `some`, never
an error), the timer stays exactly as it was, the worker continues alive
into its push phase, and no flush is triggered — the callback state, the
emitted batches, the vector and the queues are all untouched. -/
theorem C9_cancel_unarmed_silent {T : Type} (c : Nat) (s : St T) (x : T) (t : Nat)
    (hp : s.phase = Phase.got x) (ha : s.armed = none) (h1 : s.now ≤ t) :
    stepFn c s t Act.cancelStep =
      some { s with
              now := t, phase := Phase.can x, armed := s.armed,
              nCancel := s.nCancel + 1 } := by
  unfold stepFn
  rw [if_neg (Nat.not_lt.mpr h1)]
  dsimp only
  rw [hp, ha]

/-- C9 witness: the theorem applied at the concrete reachable state
`s9mid`, where the worker holds item 3 and nothing is armed. -/
theorem C9_cancel_unarmed_silent_witness :
    stepFn 100 s9mid 0 Act.cancelStep =
      some { s9mid with phase := Phase.can 3, nCancel := 1 } :=
  C9_cancel_unarmed_silent 100 s9mid 3 0 rfl rfl (by decide)

/-- C10: every emitted batch is a snapshot copy (the `clone` under the
lock) of the vector's contents at flush time, and the egress channel is
append-only: a successful snapshot-and-send appends exactly the current
vector as a new batch, and no step — in particular neither the clear nor
any later append — ever modifies a batch already emitted (over any step
and any whole trace, the old batch list stays a prefix of the new one). -/
theorem C10_batches_immutable {T : Type} :
    (∀ (c : Nat) (s s2 : St T) (t : Nat) (a : Act T),
        stepFn c s t a = some s2 → ∃ u, s2.buffered = s.buffered ++ u) ∧
    (∀ (c : Nat) (s s2 : St T) (t : Nat),
        s.cb = Cb.fired → s.rxAlive = true →
        stepFn c s t Act.snapSendStep = some s2 →
        s2.buffered = s.buffered ++ [s.items]) ∧
    (∀ (c : Nat) (s s2 : St T) (tr : List (Nat × Act T)),
        runTrace c s tr = some s2 → ∃ u, s2.buffered = s.buffered ++ u) := by
  refine ⟨?_, ?_, ?_⟩
  · intro c s s2 t a h
    exact step_buffered h
  · intro c s s2 t hc hrx h
    unfold stepFn at h
    split at h
    · exact Option.noConfusion h
    dsimp only at h
    rw [hc, hrx] at h
    dsimp only at h
    simp only [Option.some.injEq] at h
    subst h
    rfl
  · intro c s s2 tr h
    exact run_buffered tr s s2 h

/-- C10 witness: the theorem applied at the concrete reachable state
`s10mid` and its snapshot-and-send successor `s10post`. -/
theorem C10_batches_immutable_witness :
    (∃ u, s10post.buffered = s10mid.buffered ++ u) ∧
    s10post.buffered = s10mid.buffered ++ [s10mid.items] :=
  ⟨(C10_batches_immutable (T := Nat)).1 100 s10mid s10post 100 Act.snapSendStep rfl,
   (C10_batches_immutable (T := Nat)).2.1 100 s10mid s10post 100 rfl rfl rfl⟩

end CooldownBuffer
